import Mathlib

/-!
Verification development for the Community Safety Core of the chobot
repository (src/bots/flight_logger.py, the island monitor loop in
src/bots/discord_command_bot.py, and the text normalization in
src/utils/helpers.py).

Strings from the Python source are modelled as `List Char`.  The
Unicode-specific parts of `clean_text` (NFKD compatibility decomposition,
combining-mark stripping, Unicode-name fallback for small capitals) are
the identity on ASCII text, so the model covers the ASCII fragment of the
function; everything the claims exercise is ASCII.
-/

namespace Chobot

/-! ## Text normalization (src/utils/helpers.py) -/

/-- Python `str.strip()` whitespace test, restricted to the ASCII
whitespace characters that `Char.isWhitespace` shares with Python. -/
def isSpaceChar (c : Char) : Bool := c.isWhitespace

/-- Python `s.strip()`: drop leading and trailing whitespace. -/
def stripChars (l : List Char) : List Char :=
  ((l.dropWhile isSpaceChar).reverse.dropWhile isSpaceChar).reverse

/-- `utils.helpers.clean_text`, ASCII fragment: NFKD normalization and
combining-mark stripping are the identity on ASCII, and every ASCII
character passes the `isascii` branch, so the function reduces to
keeping alphanumeric characters and lowercasing
(`"".join(ch for ch in result if ch.isalnum()).lower()`). -/
def cleanText (l : List Char) : List Char :=
  (l.filter Char.isAlphanum).map Char.toLower

/-- Helper for `splitOnChar`: prepend a character to the first piece. -/
def consHead (c : Char) : List (List Char) → List (List Char)
  | [] => [[c]]
  | p :: ps => (c :: p) :: ps

/-- Python `s.split(sep)` for a one-character separator: splits at every
occurrence and keeps empty pieces (`"".split(x) == [""]`). -/
def splitOnChar (sep : Char) : List Char → List (List Char)
  | [] => [[]]
  | c :: cs =>
    if c = sep then [] :: splitOnChar sep cs
    else consHead c (splitOnChar sep cs)

/-! ## Nickname claim parsing (FlightLoggerCog.split_options /
parse_member_nick, src/bots/flight_logger.py lines 708-719) -/

/-- `FlightLoggerCog.split_options`:
`parts = [p.strip() for p in raw.split("/") if p.strip()]` followed by
`[clean_text(p) for p in parts if clean_text(p)]`. -/
def split_options (raw : List Char) : List (List Char) :=
  if raw.isEmpty then []
  else
    let parts := ((splitOnChar '/' raw).map stripChars).filter (fun p => !p.isEmpty)
    (parts.map cleanText).filter (fun t => !t.isEmpty)

/-- `FlightLoggerCog.parse_member_nick`: names without `'|'` yield two
empty lists; otherwise the name is split on `'|'`, stripped segments that
are empty are dropped, the first remaining segment gives the id tags and
the rest (rejoined with `" | "`) the island tags. -/
def parse_member_nick (displayName : List Char) : List (List Char) × List (List Char) :=
  if displayName.isEmpty || !displayName.contains '|' then ([], [])
  else
    let chunks := ((splitOnChar '|' displayName).map stripChars).filter (fun c => !c.isEmpty)
    match chunks with
    | [] => ([], [])
    | c0 :: rest =>
      (split_options c0,
       if rest.isEmpty then []
       else split_options (List.intercalate [' ', '|', ' '] rest))

/-- Modelled from the spec claim wording (refinement reference for C6,
spec section 4.1): split into exactly two logical halves at the FIRST
occurrence of the separator; the left half is id-tag text, the remainder
(verbatim, i.e. rejoined on the separator) is location-tag text.  This is
the claim's described behavior, to be compared with `parse_member_nick`. -/
def claimParseNick (displayName : List Char) : List (List Char) × List (List Char) :=
  if !displayName.contains '|' then ([], [])
  else
    let left := displayName.takeWhile (fun c => c ≠ '|')
    let rest := (displayName.dropWhile (fun c => c ≠ '|')).tail
    (split_options left, split_options rest)

/-! ## Identity resolver (FlightLoggerCog.find_matching_members,
src/bots/flight_logger.py lines 721-731) -/

/-- A directory member: the resolver only reads the display name; the id
stands for the underlying Discord member object. -/
structure Member where
  id : Nat
  displayName : List Char
deriving DecidableEq, Repr

/-- The loop body predicate of `find_matching_members`: members whose
parsed claim is empty on both sides are skipped (`continue`); otherwise
`ign_match = ign_log_clean in ign_opts` and
`island_match = island_log_clean in island_opts if island_opts else True`. -/
def memberMatches (ignLogClean islandLogClean : List Char) (m : Member) : Bool :=
  let p := parse_member_nick m.displayName
  if p.1.isEmpty && p.2.isEmpty then false
  else p.1.contains ignLogClean && (p.2.isEmpty || p.2.contains islandLogClean)

/-- `FlightLoggerCog.find_matching_members`: collects every matching
member of the guild, in directory order. -/
def find_matching_members (members : List Member) (ignLogClean islandLogClean : List Char) :
    List Member :=
  members.filter (memberMatches ignLogClean islandLogClean)

/-! ## Arrival processing (FlightLoggerCog.on_message / log_result,
src/bots/flight_logger.py lines 733-773) -/

inductive CaseStatus where
  | OPEN
  | INVESTIGATING
  | CLOSED
deriving DecidableEq, Repr

/-- The moderation case as materialized by the alert embed posted by
`log_result`: traveler, origin, destination, and the case status implied
by the live `TravelerActionView` controls (all enabled at creation). -/
structure ModerationCase where
  travelerName : List Char
  originIsland : List Char
  destination : List Char
  status : CaseStatus
deriving DecidableEq, Repr

/-- Externally visible outcomes of `log_result`. -/
inductive LogAction where
  | matchLogged (members : List Member)
  | caseCreated (c : ModerationCase)
deriving DecidableEq, Repr

def isCaseCreated : LogAction → Bool
  | LogAction.caseCreated _ => true
  | _ => false

def isOpenCaseCreated : LogAction → Bool
  | LogAction.caseCreated c => c.status = CaseStatus.OPEN
  | _ => false

/-- `FlightLoggerCog.log_result`: returns early when the flight-log
output channel cannot be resolved; with the channel present, a non-empty
match set is only logged, and an empty one produces exactly one alert
(an OPEN case with full controls). -/
def log_result (outputChannelExists : Bool) (found : List Member)
    (ign island dest : List Char) : List LogAction :=
  if !outputChannelExists then []
  else if !found.isEmpty then [LogAction.matchLogged found]
  else [LogAction.caseCreated ⟨ign, island, dest, CaseStatus.OPEN⟩]

/-- `FlightLoggerCog.on_message` after the pattern match: clean the
captured traveler and origin, resolve against the directory, and hand the
result to `log_result`.  (The channel/author guards and the regex itself
precede the arrival event and are outside the claims.) -/
def processArrival (members : List Member) (outputChannelExists : Bool)
    (ignRaw islandRaw destRaw : List Char) : List LogAction :=
  log_result outputChannelExists
    (find_matching_members members (cleanText ignRaw) (cleanText islandRaw))
    ignRaw islandRaw destRaw

/-! ## Island liveness monitor (island_monitor_loop,
src/bots/discord_command_bot.py lines 830-902).  One tracked island,
single writer; each entry of the observation list is one successful
`_check_island_online` result (poll iterations that fail or find no
channel do not reach the state update and are not observations). -/

inductive IslandNotice where
  | islandDown
  | backUp
deriving DecidableEq, Repr

/-- One monitor iteration for one island.  The stored state is
`island_down_states[island]` (`none` = first run, `some wasDown`
otherwise); the input is the observed `is_online` boolean.  On the first
run the code stores `False` ("not down") unconditionally and emits
nothing; afterwards it notifies exactly on flips of the stored boolean. -/
def monitorStep (prev : Option Bool) (isOnline : Bool) :
    Option Bool × Option IslandNotice :=
  match prev with
  | none => (some false, none)
  | some wasDown =>
    if !isOnline && !wasDown then (some true, some IslandNotice.islandDown)
    else if isOnline && wasDown then (some false, some IslandNotice.backUp)
    else (some wasDown, none)

/-- Run the monitor over a sequence of observations from a given state,
collecting the per-observation notification slots. -/
def runMonitorFrom (st : Option Bool) : List Bool → List (Option IslandNotice)
  | [] => []
  | b :: bs =>
    let p := monitorStep st b
    p.2 :: runMonitorFrom p.1 bs

/-- Run the monitor from a cold start (no stored state). -/
def runMonitor (obs : List Bool) : List (Option IslandNotice) :=
  runMonitorFrom none obs

/-! ## Punishment engine (FlightLoggerCog._execute_punishment_internal,
src/bots/flight_logger.py lines 540-631) -/

inductive ActionType where
  | WARN
  | KICK
  | BAN
deriving DecidableEq, Repr

/-- Outcome of the Discord kick/ban call inside the `try` block:
success, `discord.Forbidden`, or any other exception. -/
inductive StepOutcome where
  | ok
  | forbidden
  | err
deriving DecidableEq, Repr

/-- Failure-injection environment for one punishment submission.
`dmDelivers` is whether `target.send` succeeds (an `HTTPException` there
is caught and passed, so it never changes control flow); `actionOutcome`
is the kick/ban call; `roleHeld` is `visitor_role and visitor_role in
target.roles`; `dbOk` is the `add_warning` insert; `logChannelExists`
is `guild.get_channel(Config.SUB_MOD_CHANNEL_ID)`. -/
structure PunishEnv where
  dmDelivers : Bool
  actionOutcome : StepOutcome
  roleHeld : Bool
  dbOk : Bool
  logChannelExists : Bool
deriving DecidableEq, Repr

/-- Observable side effects of a punishment submission, in execution
order. -/
inductive Effect where
  | builderControlsDisabledEdit
  | roleRemovalAttempted
  | dmAttempted
  | kickExecuted
  | banExecuted
  | warningAppended
  | countComputed
  | auditLogPosted
  | confirmSentToModerator
  | confirmSentNoLogChannel
  | alertCloseAttempted
  | reportPermissionDenied
  | reportSystemError
deriving DecidableEq, Repr

/-- The `try` block of `_execute_punishment_internal` (steps 2-6 of the
source comments): DM (failure swallowed), kick/ban, warning insert,
trailing-window count, audit log post plus moderator confirmation, alert
update.  Returns the effects performed before any escape together with
the exception, if one escaped.  (`_resolve_alert` swallows its own edit
errors, so the alert update never raises here.) -/
def punishTryBody (action : ActionType) (env : PunishEnv) :
    List Effect × Option StepOutcome :=
  let dmE := [Effect.dmAttempted]
  let actionRes : List Effect × Option StepOutcome :=
    match action with
    | ActionType.WARN => ([], none)
    | ActionType.KICK =>
      match env.actionOutcome with
      | StepOutcome.ok => ([Effect.kickExecuted], none)
      | StepOutcome.forbidden => ([], some StepOutcome.forbidden)
      | StepOutcome.err => ([], some StepOutcome.err)
    | ActionType.BAN =>
      match env.actionOutcome with
      | StepOutcome.ok => ([Effect.banExecuted], none)
      | StepOutcome.forbidden => ([], some StepOutcome.forbidden)
      | StepOutcome.err => ([], some StepOutcome.err)
  match actionRes with
  | (es, some f) => (dmE ++ es, some f)
  | (es, none) =>
    if !env.dbOk then (dmE ++ es, some StepOutcome.err)
    else
      (dmE ++ es ++ [Effect.warningAppended, Effect.countComputed]
        ++ (if env.logChannelExists then
              [Effect.auditLogPosted, Effect.confirmSentToModerator]
            else [Effect.confirmSentNoLogChannel])
        ++ [Effect.alertCloseAttempted], none)

/-- `_execute_punishment_internal`: for Warn the island-access role
removal (source step "1.5", lines 563-573, its own exceptions caught
locally) runs BEFORE the `try` block; then the `try` body; `except
discord.Forbidden` reports "Permission Denied" and `except Exception`
reports the error text, in both cases performing nothing further. -/
def executePunishment (action : ActionType) (env : PunishEnv) : List Effect :=
  let pre :=
    if action = ActionType.WARN && env.roleHeld then [Effect.roleRemovalAttempted]
    else []
  match punishTryBody action env with
  | (es, none) => pre ++ es
  | (es, some StepOutcome.forbidden) => pre ++ es ++ [Effect.reportPermissionDenied]
  | (es, some _) => pre ++ es ++ [Effect.reportSystemError]

/-! ## Punishment builder view (PunishmentBuilderView,
src/bots/flight_logger.py lines 239-319) -/

/-- The wizard's in-memory fields (`selected_member`, `selected_duration`,
`selected_reason`; the custom reason text only substitutes the reason
string and does not change enablement). -/
structure BuilderFields where
  actionType : ActionType
  selectedMember : Option Nat
  selectedDuration : Option String
  selectedReason : Option String
deriving DecidableEq, Repr

/-- `_update_components`: `can_submit = has_member and has_reason and
has_duration` where `has_duration` is waived unless the action is WARN. -/
def canSubmit (f : BuilderFields) : Bool :=
  f.selectedMember.isSome && f.selectedReason.isSome &&
    (f.selectedDuration.isSome || f.actionType ≠ ActionType.WARN)

/-- The Confirm button's `disabled` flag as set by `_update_components`. -/
def confirmButtonDisabled (f : BuilderFields) : Bool := !canSubmit f

/-- A rendered builder view: its fields plus whether `execute_punishment`
has already disabled every child component. -/
structure BuilderViewState where
  fields : BuilderFields
  allDisabled : Bool
deriving DecidableEq, Repr

/-- A click on the Confirm button.  The chat platform only delivers
clicks on enabled controls, so a disabled view (or a disabled Confirm
button) yields no effects.  Otherwise `execute_punishment` first disables
every child and edits the message (before any side effect), then runs
`_execute_punishment_internal`. -/
def clickSubmit (v : BuilderViewState) (env : PunishEnv) :
    BuilderViewState × List Effect :=
  if v.allDisabled || confirmButtonDisabled v.fields then (v, [])
  else
    (⟨v.fields, true⟩,
     Effect.builderControlsDisabledEdit :: executePunishment v.fields.actionType env)

/-! ## Warning ledger (add_warning / get_warn_count /
remove_latest_warning, src/bots/flight_logger.py lines 498-527).
The `warnings` table is modelled as a list of rows in rowid order;
SQLite rowids are unique. -/

structure WarningRow where
  rowid : Nat
  user_id : Nat
  guild_id : Nat
  reason : String
  mod_id : Nat
  timestamp : Int
deriving DecidableEq, Repr

/-- The `WHERE user_id = ? AND guild_id = ?` filter. -/
def matchesPair (u g : Nat) (r : WarningRow) : Bool :=
  r.user_id == u && r.guild_id == g

/-- `FlightLoggerCog.get_warn_count`: `SELECT COUNT(*) ... AND timestamp
> cutoff` with `cutoff = now - days` (in seconds). -/
def get_warn_count (db : List WarningRow) (u g : Nat) (now : Int) (days : Nat) : Nat :=
  (db.filter (fun r => matchesPair u g r && decide ((now - (days : Int) * 86400) < r.timestamp))).length

/-- `ORDER BY timestamp DESC LIMIT 1` over a row list: a row of maximal
timestamp.  SQLite leaves the choice among equal timestamps unspecified;
the model resolves ties to the earliest-inserted row, and no proved
property depends on the tie choice. -/
def latestRow : List WarningRow → Option WarningRow
  | [] => none
  | r :: rs =>
    match latestRow rs with
    | none => some r
    | some b => some (if r.timestamp < b.timestamp then b else r)

/-- `FlightLoggerCog.remove_latest_warning`: select the most recent row
for the pair; if none, return `None`; otherwise `DELETE ... WHERE rowid =
?` and return the row's contents.  Returns the result together with the
table after the delete. -/
def remove_latest_warning (db : List WarningRow) (u g : Nat) :
    Option WarningRow × List WarningRow :=
  match latestRow (db.filter (matchesPair u g)) with
  | none => (none, db)
  | some r => (some r, db.filter (fun x => x.rowid != r.rowid))

/-! ## Case identifiers (src/bots/flight_logger.py lines 559-561 and
961-963): `f"FL-{now.strftime('%y%m')}-{hex(int(now.timestamp()))[2:][-4:].upper()}"`. -/

/-- Gregorian year and month from a day count since 1970-01-01 (the
civil-from-days algorithm used by every proleptic-Gregorian conversion,
here restricted to non-negative day counts; models
`datetime.strftime('%y%m')` on a UTC timestamp). -/
def yearMonthOfDays (z0 : Nat) : Nat × Nat :=
  let z := z0 + 719468
  let era := z / 146097
  let doe := z % 146097
  let yoe := (doe - doe / 1460 + doe / 36524 - doe / 146096) / 365
  let y := yoe + era * 400
  let doy := doe - (365 * yoe + yoe / 4 - yoe / 100)
  let mp := (5 * doy + 2) / 153
  let m := if mp < 10 then mp + 3 else mp - 9
  (if m ≤ 2 then y + 1 else y, m)

/-- Year and month of a unix timestamp in seconds. -/
def yearMonth (t : Nat) : Nat × Nat := yearMonthOfDays (t / 86400)

/-- Two-digit zero-padded decimal rendering (`%y` is the year modulo 100
zero-padded to two digits, `%m` the month likewise). -/
def pad2 (n : Nat) : List Char :=
  if n < 10 then '0' :: Nat.toDigits 10 n else Nat.toDigits 10 n

/-- Fuel-driven hexadecimal digit expansion; `hexCharsAux (n+1) n acc`
has enough fuel for every `n`. -/
def hexCharsAux : Nat → Nat → List Char → List Char
  | 0, _, acc => acc
  | fuel + 1, n, acc =>
    if n < 16 then Nat.digitChar n :: acc
    else hexCharsAux fuel (n / 16) (Nat.digitChar (n % 16) :: acc)

/-- Python `hex(n)[2:]`: lowercase hexadecimal digits, no leading zeros
(`hex(0)[2:] == "0"`). -/
def hexChars (n : Nat) : List Char := hexCharsAux (n + 1) n []

/-- Python `[-4:]`: the last four characters (the whole string when it is
shorter). -/
def lastFour (l : List Char) : List Char := l.drop (l.length - 4)

/-- The generated case identifier for a submission at unix second `t`:
`FL-` + `%y%m` + `-` + the last four hex digits of `t`, uppercased.
(`.upper()` on the slice equals uppercasing digit-by-digit.) -/
def caseIdOf (t : Nat) : List Char :=
  let ym := yearMonth t
  ['F', 'L', '-'] ++ pad2 (ym.1 % 100) ++ pad2 ym.2 ++ ['-']
    ++ lastFour ((hexChars t).map Char.toUpper)

/-! ## Concrete inputs used by witnesses -/

/-- A fully filled-in Warn builder whose controls are still live. -/
def builderReadyW : BuilderViewState :=
  ⟨⟨ActionType.WARN, some 1, some "1d", some "rule_2"⟩, false⟩

/-- A fault-free punishment environment. -/
def punishEnvW : PunishEnv := ⟨true, StepOutcome.ok, true, true, true⟩

/-- A member whose display name `"-- | Hiraya"` parses to no id tags but
one island tag. -/
def locOnlyMemberW : Member := ⟨42, "-- | Hiraya".data⟩

/-- A two-row warning ledger for one (member, workspace) pair. -/
def dbW : List WarningRow :=
  [⟨1, 5, 7, "first", 9, 100⟩, ⟨2, 5, 7, "second", 9, 200⟩]

/-- A token character that is plain text for the nickname scheme: not
whitespace, not the claim separator, not the alternatives delimiter. -/
def goodChar (c : Char) : Bool := !isSpaceChar c && c ≠ '|' && c ≠ '/'

/-! # Helper lemmas and claim theorems -/

/-- The resolver's per-member test, characterized: a member passes iff
the cleaned traveler name is among its id tags and its island-tag list is
empty or contains the cleaned origin island.  (The explicit skip of
members with two empty tag lists is subsumed: an empty id-tag list can
contain nothing.) -/
theorem memberMatches_iff (i l : List Char) (m : Member) :
    memberMatches i l m = true ↔
      i ∈ (parse_member_nick m.displayName).1 ∧
        ((parse_member_nick m.displayName).2 = [] ∨
          l ∈ (parse_member_nick m.displayName).2) := by
  unfold memberMatches
  rcases h1 : (parse_member_nick m.displayName).1 with _ | ⟨x, xs⟩ <;>
    rcases h2 : (parse_member_nick m.displayName).2 with _ | ⟨y, ys⟩ <;>
      simp [h1, h2, List.contains, List.elem_iff]

/-- C1: with the flight-log output channel present, processing an arrival
event creates no `ModerationCase` when the resolver's match set is
non-empty (the match is only logged), and creates exactly one
`ModerationCase` alert, in state OPEN, when the match set is empty. -/
theorem arrival_case_creation (members : List Member) (ign island dest : List Char) :
    processArrival members true ign island dest =
      (if (find_matching_members members (cleanText ign) (cleanText island)).isEmpty then
        [LogAction.caseCreated ⟨ign, island, dest, CaseStatus.OPEN⟩]
      else
        [LogAction.matchLogged (find_matching_members members (cleanText ign) (cleanText island))]) ∧
    (processArrival members true ign island dest).countP isCaseCreated =
      (if (find_matching_members members (cleanText ign) (cleanText island)).isEmpty then 1 else 0) ∧
    (processArrival members true ign island dest).countP isOpenCaseCreated =
      (if (find_matching_members members (cleanText ign) (cleanText island)).isEmpty then 1 else 0) := by
  cases h : (find_matching_members members (cleanText ign) (cleanText island)).isEmpty <;>
    simp [processArrival, log_result, h, isCaseCreated, isOpenCaseCreated]

/-- C2 counterexample: for the observation sequence `[false, false]` the
claim predicts that the first observation stores the observed boolean
(offline) and that the equal second observation is a no-op, i.e. the
notification trace `[none, none]`; the code instead initializes the
stored state to "not down" on the first observation and therefore emits
a "went offline" notification at index 1. -/
theorem monitor_first_observation_counterexample :
    runMonitor [false, false] = [none, some IslandNotice.islandDown] ∧
    runMonitor [false, false] ≠ [none, none] := by decide

/-- C2 (amended): the first observation for a location always stores
"not down" (it treats the location as online regardless of the observed
boolean) and emits nothing; every subsequent observation updates the
stored flag to the observed value and emits exactly one notification iff
the observed online boolean differs from the stored online boolean
(`!wasDown`), i.e. iff `b == wasDown`; for the observation sequence
`[true, true, true, false, false, true]` notifications fire only at
indices 3 (went offline) and 5 (back online). -/
theorem monitor_transitions :
    (∀ b : Bool, monitorStep none b = (some false, none)) ∧
    (∀ wasDown b : Bool,
      ((monitorStep (some wasDown) b).2.isSome = (b == wasDown)) ∧
      (monitorStep (some wasDown) b).1 = some (!b)) ∧
    runMonitor [true, true, true, false, false, true] =
      [none, none, none, some IslandNotice.islandDown, none, some IslandNotice.backUp] := by
  refine ⟨fun _ => rfl, fun wasDown b => ?_, by decide⟩
  cases wasDown <;> cases b <;> exact ⟨rfl, rfl⟩

/-- C3 counterexample: on a Warn submission with the island-access role
held, the role removal executes BEFORE the best-effort DM, not after it
as the claim states: in the fault-free trace the role-removal effect
strictly precedes the DM effect. -/
theorem punishment_order_counterexample :
    (executePunishment ActionType.WARN ⟨true, StepOutcome.ok, true, true, true⟩).indexOf
        Effect.roleRemovalAttempted <
      (executePunishment ActionType.WARN ⟨true, StepOutcome.ok, true, true, true⟩).indexOf
        Effect.dmAttempted ∧
    Effect.roleRemovalAttempted ∈
      executePunishment ActionType.WARN ⟨true, StepOutcome.ok, true, true, true⟩ ∧
    Effect.dmAttempted ∈
      executePunishment ActionType.WARN ⟨true, StepOutcome.ok, true, true, true⟩ := by decide

/-- C3 (amended): on a fault-free submission the side effects execute in
this order — for Warn the removal of the island-access role (if held)
comes FIRST, before the best-effort DM; for Kick/Ban the DM comes first,
then the directory removal; in all cases there follow the unconditional
`WarningRecord` append, the trailing-window count, the audit log post
(with a confirmation message to the moderator), and the edit of the
original alert to CLOSED with its controls disabled. -/
theorem punishment_effect_order (dm rh : Bool) :
    executePunishment ActionType.WARN ⟨dm, StepOutcome.ok, rh, true, true⟩ =
      (if rh then [Effect.roleRemovalAttempted] else []) ++
        [Effect.dmAttempted, Effect.warningAppended, Effect.countComputed,
         Effect.auditLogPosted, Effect.confirmSentToModerator, Effect.alertCloseAttempted] ∧
    executePunishment ActionType.KICK ⟨dm, StepOutcome.ok, rh, true, true⟩ =
      [Effect.dmAttempted, Effect.kickExecuted, Effect.warningAppended, Effect.countComputed,
       Effect.auditLogPosted, Effect.confirmSentToModerator, Effect.alertCloseAttempted] ∧
    executePunishment ActionType.BAN ⟨dm, StepOutcome.ok, rh, true, true⟩ =
      [Effect.dmAttempted, Effect.banExecuted, Effect.warningAppended, Effect.countComputed,
       Effect.auditLogPosted, Effect.confirmSentToModerator, Effect.alertCloseAttempted] := by
  cases rh <;> exact ⟨rfl, rfl, rfl⟩

/-- C4 counterexample: when the kick raises a non-permission exception,
the code reports the error text and performs nothing further — the audit
log step is NOT attempted, contradicting the claim that it is still
attempted on a best-effort basis. -/
theorem punishment_error_counterexample :
    executePunishment ActionType.KICK ⟨true, StepOutcome.err, false, true, true⟩ =
      [Effect.dmAttempted, Effect.reportSystemError] ∧
    Effect.auditLogPosted ∉
      executePunishment ActionType.KICK ⟨true, StepOutcome.err, false, true, true⟩ := by decide

/-- C4 (amended): a permission fault during kick/ban is reported to the
acting moderator only and no later step runs (in particular the alert is
not closed, so the case stays open for retry); any other exception is
reported as error text to the moderator and the remaining steps —
including the audit log when it has not yet been reached — are abandoned,
not attempted. -/
theorem punishment_failure_semantics (dm rh db ch : Bool) :
    executePunishment ActionType.KICK ⟨dm, StepOutcome.forbidden, rh, db, ch⟩ =
      [Effect.dmAttempted, Effect.reportPermissionDenied] ∧
    executePunishment ActionType.BAN ⟨dm, StepOutcome.forbidden, rh, db, ch⟩ =
      [Effect.dmAttempted, Effect.reportPermissionDenied] ∧
    executePunishment ActionType.KICK ⟨dm, StepOutcome.err, rh, db, ch⟩ =
      [Effect.dmAttempted, Effect.reportSystemError] ∧
    executePunishment ActionType.BAN ⟨dm, StepOutcome.err, rh, db, ch⟩ =
      [Effect.dmAttempted, Effect.reportSystemError] ∧
    executePunishment ActionType.WARN ⟨dm, StepOutcome.ok, rh, false, ch⟩ =
      (if rh then [Effect.roleRemovalAttempted] else []) ++
        [Effect.dmAttempted, Effect.reportSystemError] ∧
    executePunishment ActionType.KICK ⟨dm, StepOutcome.ok, rh, false, ch⟩ =
      [Effect.dmAttempted, Effect.kickExecuted, Effect.reportSystemError] ∧
    executePunishment ActionType.BAN ⟨dm, StepOutcome.ok, rh, false, ch⟩ =
      [Effect.dmAttempted, Effect.banExecuted, Effect.reportSystemError] := by
  cases rh <;> exact ⟨rfl, rfl, rfl, rfl, rfl, rfl, rfl⟩

/-- C8: the builder's Confirm control is disabled exactly when a required
field is missing (target member, reason, or — for Warn only — duration);
a delivered click first disables every control (the disabling edit is the
head of the effect trace, before any punishment side effect) and leaves
the view disabled, so a second submission attempt against the same
builder produces no effects at all. -/
theorem builder_submission_guard (v : BuilderViewState) (env env2 : PunishEnv) :
    (confirmButtonDisabled v.fields = true ↔
      (v.fields.selectedMember = none ∨ v.fields.selectedReason = none ∨
        (v.fields.actionType = ActionType.WARN ∧ v.fields.selectedDuration = none))) ∧
    (v.allDisabled = false → canSubmit v.fields = true →
      ((clickSubmit v env).2.head? = some Effect.builderControlsDisabledEdit ∧
        (clickSubmit v env).1.allDisabled = true)) ∧
    ((clickSubmit v env).2 ≠ [] → (clickSubmit (clickSubmit v env).1 env2).2 = []) := by
  obtain ⟨⟨a, m, d, r⟩, dis⟩ := v
  refine ⟨?_, ?_, ?_⟩
  · cases m <;> cases d <;> cases r <;> cases a <;>
      simp [confirmButtonDisabled, canSubmit]
  · intro h1 h2
    simp only at h1 h2
    simp [clickSubmit, h1, confirmButtonDisabled, h2]
  · intro h
    by_cases hc : (dis || confirmButtonDisabled ⟨a, m, d, r⟩) = true
    · exact absurd (by simp [clickSubmit, hc]) h
    · simp only [Bool.or_eq_true, not_or] at hc
      simp [clickSubmit, hc.1, hc.2, Bool.not_eq_true _ ▸ hc.2]

/-- `latestRow` returns `none` exactly on the empty row set. -/
theorem latestRow_eq_none {l : List WarningRow} : latestRow l = none ↔ l = [] := by
  cases l with
  | nil => simp [latestRow]
  | cons a t =>
    simp only [latestRow]
    cases h : latestRow t <;> simp

/-- `latestRow` returns a row of the list. -/
theorem latestRow_mem {l : List WarningRow} {r : WarningRow} (h : latestRow l = some r) :
    r ∈ l := by
  induction l with
  | nil => simp [latestRow] at h
  | cons a t ih =>
    rw [latestRow] at h
    cases ht : latestRow t with
    | none =>
      rw [ht] at h
      simp only [Option.some.injEq] at h
      simp [h]
    | some b =>
      rw [ht] at h
      simp only [Option.some.injEq] at h
      by_cases hab : a.timestamp < b.timestamp
      · rw [if_pos hab] at h
        exact List.mem_cons_of_mem a (ih (h ▸ ht))
      · rw [if_neg hab] at h
        simp [h]

/-- `latestRow` returns a row of maximal timestamp. -/
theorem latestRow_le {l : List WarningRow} {r : WarningRow} (h : latestRow l = some r) :
    ∀ x ∈ l, x.timestamp ≤ r.timestamp := by
  induction l generalizing r with
  | nil => simp [latestRow] at h
  | cons a t ih =>
    rw [latestRow] at h
    intro x hx
    rcases List.mem_cons.1 hx with rfl | hxt
    · cases ht : latestRow t with
      | none => rw [ht] at h; simp only [Option.some.injEq] at h; rw [h]
      | some b =>
        rw [ht] at h
        simp only [Option.some.injEq] at h
        by_cases hab : x.timestamp < b.timestamp
        · rw [if_pos hab] at h; rw [h] at hab; exact le_of_lt hab
        · rw [if_neg hab] at h; rw [h]
    · cases ht : latestRow t with
      | none => rw [latestRow_eq_none.1 ht] at hxt; simp at hxt
      | some b =>
        rw [ht] at h
        simp only [Option.some.injEq] at h
        have hxb := ih ht x hxt
        by_cases hab : a.timestamp < b.timestamp
        · rw [if_pos hab] at h; exact h ▸ hxb
        · rw [if_neg hab] at h
          rw [← h]
          exact le_trans hxb (le_of_not_lt hab)

/-- Deleting a row by its (unique) rowid removes exactly that row from
any selection: the filtered count drops by one when the deleted row
satisfied the filter and is unchanged otherwise. -/
theorem length_filter_remove (p : WarningRow → Bool) :
    ∀ (l : List WarningRow) (r : WarningRow),
      (l.map WarningRow.rowid).Nodup → r ∈ l →
      ((l.filter (fun x => x.rowid != r.rowid)).filter p).length =
        (l.filter p).length - (if p r = true then 1 else 0) := by
  intro l
  induction l with
  | nil => intro r _ hr; simp at hr
  | cons a t ih =>
    intro r hnd hr
    rw [List.map_cons, List.nodup_cons] at hnd
    have htne : ∀ x ∈ t, x.rowid ≠ a.rowid := by
      intro x hx he
      exact hnd.1 (he ▸ List.mem_map_of_mem WarningRow.rowid hx)
    rcases List.mem_cons.1 hr with rfl | hrt
    · have hkeep : t.filter (fun x => x.rowid != r.rowid) = t := by
        apply List.filter_eq_self.2
        intro x hx
        simp [htne x hx]
      simp only [List.filter_cons]
      rw [if_neg (by simp), hkeep]
      by_cases hp : p r = true
      · rw [if_pos hp, if_pos hp, List.length_cons]
        omega
      · rw [if_neg hp, if_neg hp]
        omega
    · have hne : (a.rowid != r.rowid) = true := by
        have hx := htne r hrt
        simp only [bne_iff_ne, ne_eq, decide_not]
        intro he
        exact hx he.symm
      have hrec := ih r hnd.2 hrt
      simp only [List.filter_cons]
      rw [if_pos hne]
      simp only [List.filter_cons]
      by_cases hpa : p a = true
      · rw [if_pos hpa, if_pos hpa, List.length_cons, List.length_cons, hrec]
        by_cases hpr : p r = true
        · have hlen : 1 ≤ (t.filter p).length :=
            List.length_pos_of_mem (List.mem_filter.2 ⟨hrt, hpr⟩)
          rw [if_pos hpr]
          omega
        · rw [if_neg hpr]
          omega
      · rw [if_neg hpa, if_neg hpa]
        exact hrec

/-- Splitting a separator-free list yields the single piece. -/
theorem splitOnChar_no_sep (sep : Char) :
    ∀ (s : List Char), sep ∉ s → splitOnChar sep s = [s] := by
  intro s
  induction s with
  | nil => intro _; rfl
  | cons c cs ih =>
    intro h
    have h1 : ¬(c = sep) := fun he => h (by simp [he])
    have h2 : sep ∉ cs := fun hm => h (List.mem_cons_of_mem c hm)
    rw [splitOnChar, if_neg h1, ih h2]
    rfl

/-- Splitting at the first separator occurrence detaches the prefix. -/
theorem splitOnChar_append_sep (sep : Char) :
    ∀ (xs ys : List Char), sep ∉ xs →
      splitOnChar sep (xs ++ sep :: ys) = xs :: splitOnChar sep ys := by
  intro xs
  induction xs with
  | nil =>
    intro ys _
    rw [List.nil_append, splitOnChar, if_pos rfl]
  | cons x xs ih =>
    intro ys h
    have h1 : ¬(x = sep) := fun he => h (by simp [he])
    have h2 : sep ∉ xs := fun hm => h (List.mem_cons_of_mem x hm)
    rw [List.cons_append, splitOnChar, if_neg h1, ih ys h2]
    rfl

/-- `dropWhile` is the identity on a list none of whose elements satisfy
the predicate. -/
theorem dropWhile_forall_neg (p : Char → Bool) :
    ∀ (m : List Char), (∀ c ∈ m, p c = false) → m.dropWhile p = m := by
  intro m h
  cases m with
  | nil => rfl
  | cons a t =>
    rw [List.dropWhile_cons, if_neg (by simp [h a (List.mem_cons_self a t)])]

/-- Stripping is the identity on whitespace-free text. -/
theorem strip_eq_self (l : List Char) (h : ∀ c ∈ l, isSpaceChar c = false) :
    stripChars l = l := by
  unfold stripChars
  rw [dropWhile_forall_neg _ l h,
    dropWhile_forall_neg _ l.reverse (fun c hc => h c (List.mem_reverse.1 hc)),
    List.reverse_reverse]

/-- Stripping removes a single trailing space from whitespace-free text. -/
theorem strip_append_space (xs : List Char) (hne : xs ≠ [])
    (h : ∀ c ∈ xs, isSpaceChar c = false) : stripChars (xs ++ [' ']) = xs := by
  obtain ⟨a, as, rfl⟩ := List.exists_cons_of_ne_nil hne
  unfold stripChars
  rw [List.cons_append, List.dropWhile_cons,
    if_neg (by simp [h a (List.mem_cons_self a as)]), ← List.cons_append]
  have hrev : ((a :: as) ++ [' ']).reverse = ' ' :: (a :: as).reverse := by simp
  rw [hrev, List.dropWhile_cons, if_pos (by decide),
    dropWhile_forall_neg _ _ (fun c hc => h c (List.mem_reverse.1 hc)),
    List.reverse_reverse]

/-- Stripping removes a single leading space from whitespace-free text. -/
theorem strip_space_cons (xs : List Char) (h : ∀ c ∈ xs, isSpaceChar c = false) :
    stripChars (' ' :: xs) = xs := by
  unfold stripChars
  rw [List.dropWhile_cons, if_pos (by decide), dropWhile_forall_neg _ xs h,
    dropWhile_forall_neg _ xs.reverse (fun c hc => h c (List.mem_reverse.1 hc)),
    List.reverse_reverse]

/-- A list with a non-empty normalization is non-empty. -/
theorem ne_nil_of_cleanText {A : List Char} (h : cleanText A ≠ []) : A ≠ [] := by
  intro he
  rw [he] at h
  exact h rfl

/-- Unpacking `goodChar`: such characters are not the separator, not the
alternatives delimiter, and not whitespace. -/
theorem goodChar_facts {l : List Char} (h : ∀ c ∈ l, goodChar c = true) :
    '|' ∉ l ∧ '/' ∉ l ∧ ∀ c ∈ l, isSpaceChar c = false := by
  refine ⟨fun hm => ?_, fun hm => ?_, fun c hc => ?_⟩
  · have hgc := h '|' hm
    simp [goodChar] at hgc
  · have hgc := h '/' hm
    simp [goodChar] at hgc
  · have hgc := h c hc
    simp only [goodChar, Bool.and_eq_true, Bool.not_eq_true'] at hgc
    exact hgc.1.1

/-- `split_options` on a single clean token. -/
theorem split_options_single (C : List Char) (hC : ∀ c ∈ C, goodChar c = true)
    (hCc : cleanText C ≠ []) : split_options C = [cleanText C] := by
  obtain ⟨_, hslash, hsp⟩ := goodChar_facts hC
  have hCne : C ≠ [] := ne_nil_of_cleanText hCc
  simp [split_options, List.isEmpty_iff, hCne, splitOnChar_no_sep '/' C hslash,
    strip_eq_self C hsp, hCc]

/-- `split_options` on two clean tokens joined by the alternatives
delimiter. -/
theorem split_options_pair (A B : List Char)
    (hA : ∀ c ∈ A, goodChar c = true) (hB : ∀ c ∈ B, goodChar c = true)
    (hAc : cleanText A ≠ []) (hBc : cleanText B ≠ []) :
    split_options (A ++ '/' :: B) = [cleanText A, cleanText B] := by
  obtain ⟨_, hslashA, hspA⟩ := goodChar_facts hA
  obtain ⟨_, hslashB, hspB⟩ := goodChar_facts hB
  have hAne : A ≠ [] := ne_nil_of_cleanText hAc
  have hBne : B ≠ [] := ne_nil_of_cleanText hBc
  have hne : A ++ '/' :: B ≠ [] := by simp
  simp [split_options, List.isEmpty_iff, hne,
    splitOnChar_append_sep '/' A B hslashA, splitOnChar_no_sep '/' B hslashB,
    strip_eq_self A hspA, strip_eq_self B hspB, hAne, hBne, hAc, hBc]

/-- C6 counterexample: on the display name `"|C"` the code drops the
empty-after-strip left half and treats `C` as the id-tag side, yielding
`idTags = {"c"}, locationTags = {}`; the claim's halving-at-first-
separator reading (`claimParseNick`) instead yields
`idTags = {}, locationTags = {"c"}`, so the two disagree. -/
theorem nick_parsing_counterexample :
    parse_member_nick "|C".data = (["c".data], []) ∧
    claimParseNick "|C".data = ([], ["c".data]) ∧
    parse_member_nick "|C".data ≠ claimParseNick "|C".data := by decide

/-- C6 (amended): a display name without the separator yields two empty
tag sets; with the separator present the name is split on it and
whitespace-stripped segments that are empty are DROPPED before halving,
so a name whose text is entirely after the separator yields that text as
id tags and empty location tags; for well-formed names `"A/B | C"` of
plain tokens the parse is `idTags = {norm A, norm B}`,
`locationTags = {norm C}` as claimed. -/
theorem nick_parsing :
    (∀ s : List Char, s.contains '|' = false → parse_member_nick s = ([], [])) ∧
    (∀ s : List Char, s.contains '|' = false →
      parse_member_nick ('|' :: s) = (split_options (stripChars s), [])) ∧
    (∀ A B C : List Char,
      (∀ c ∈ A, goodChar c = true) → (∀ c ∈ B, goodChar c = true) →
      (∀ c ∈ C, goodChar c = true) →
      cleanText A ≠ [] → cleanText B ≠ [] → cleanText C ≠ [] →
      parse_member_nick (A ++ '/' :: B ++ ' ' :: '|' :: ' ' :: C) =
        ([cleanText A, cleanText B], [cleanText C])) := by
  refine ⟨?_, ?_, ?_⟩
  · intro s h
    have hmem : '|' ∉ s := by
      simpa [List.contains, List.elem_eq_mem] using h
    simp [parse_member_nick, hmem]
  · intro s h
    have hmem : '|' ∉ s := by
      simpa [List.contains, List.elem_eq_mem] using h
    have hsplit : splitOnChar '|' ('|' :: s) = [[], s] := by
      rw [splitOnChar, if_pos rfl, splitOnChar_no_sep '|' s hmem]
    have hstripnil : stripChars ([] : List Char) = [] := rfl
    have hoptsnil : split_options ([] : List Char) = [] := rfl
    by_cases hse : (stripChars s).isEmpty = true
    · have hnil : stripChars s = [] := by simpa [List.isEmpty_iff] using hse
      simp [parse_member_nick, hsplit, hstripnil, hnil, hoptsnil]
    · have hse2 : (stripChars s).isEmpty = false := by
        simpa using hse
      have hse3 : stripChars s ≠ [] := by
        simpa [List.isEmpty_iff] using hse
      simp [parse_member_nick, hsplit, hstripnil, hse2, hse3]
  · intro A B C hA hB hC hAc hBc hCc
    obtain ⟨hpipeA, hslashA, hspA⟩ := goodChar_facts hA
    obtain ⟨hpipeB, hslashB, hspB⟩ := goodChar_facts hB
    obtain ⟨hpipeC, hslashC, hspC⟩ := goodChar_facts hC
    have hAne : A ≠ [] := ne_nil_of_cleanText hAc
    have hBne : B ≠ [] := ne_nil_of_cleanText hBc
    have hCne : C ≠ [] := ne_nil_of_cleanText hCc
    have hshape : A ++ '/' :: B ++ ' ' :: '|' :: ' ' :: C
        = (A ++ '/' :: (B ++ [' '])) ++ '|' :: ' ' :: C := by simp
    have hnoPipeXs : '|' ∉ A ++ '/' :: (B ++ [' ']) := by
      simp only [List.mem_append, List.mem_cons, List.mem_singleton]
      rintro (hm | hm | hm | hm)
      · exact hpipeA hm
      · exact absurd hm.symm (by decide)
      · exact hpipeB hm
      · exact absurd hm (by decide)
    have hnoPipeSC : '|' ∉ ' ' :: C := by
      simp only [List.mem_cons]
      rintro (hm | hm)
      · exact absurd hm (by decide)
      · exact hpipeC hm
    have hsplit1 : splitOnChar '|' ((A ++ '/' :: (B ++ [' '])) ++ '|' :: ' ' :: C)
        = (A ++ '/' :: (B ++ [' '])) :: [' ' :: C] := by
      rw [splitOnChar_append_sep '|' _ _ hnoPipeXs,
        splitOnChar_no_sep '|' _ hnoPipeSC]
    have hstrip1 : stripChars (A ++ '/' :: (B ++ [' '])) = A ++ '/' :: B := by
      have hassoc : A ++ '/' :: (B ++ [' ']) = (A ++ '/' :: B) ++ [' '] := by simp
      rw [hassoc]
      apply strip_append_space _ (by simp)
      intro c hc
      rcases List.mem_append.1 hc with hm | hm
      · exact hspA c hm
      · rcases List.mem_cons.1 hm with rfl | hm
        · decide
        · exact hspB c hm
    have hstrip2 : stripChars (' ' :: C) = C := strip_space_cons C hspC
    have hinter : List.intercalate [' ', '|', ' '] [C] = C := by
      simp [List.intercalate]
    have hABne : A ++ '/' :: B ≠ [] := by simp
    have hmemN : '|' ∈ A ++ '/' :: B ++ ' ' :: '|' :: ' ' :: C := by simp
    have hNne : A ++ '/' :: B ++ ' ' :: '|' :: ' ' :: C ≠ [] := by simp
    have hsplitN : splitOnChar '|' (A ++ '/' :: B ++ ' ' :: '|' :: ' ' :: C)
        = [A ++ '/' :: (B ++ [' ']), ' ' :: C] := by
      rw [hshape, splitOnChar_append_sep '|' _ _ hnoPipeXs,
        splitOnChar_no_sep '|' _ hnoPipeSC]
    generalize hN : A ++ '/' :: B ++ ' ' :: '|' :: ' ' :: C = N
      at hmemN hNne hsplitN ⊢
    simp [parse_member_nick, hmemN, List.isEmpty_iff, hNne, hsplitN,
      hstrip1, hstrip2, hABne, hCne, hinter,
      split_options_pair A B hA hB hAc hBc, split_options_single C hC hCc]

/-- C6 witness: the well-formed two-part display name
`"Kylo/Ren | Hiraya"` parses to id tags `{kylo, ren}` and island tags
`{hiraya}`. -/
theorem nick_parsing_witness :
    parse_member_nick "Kylo/Ren | Hiraya".data =
      (["kylo".data, "ren".data], ["hiraya".data]) := by
  have heq : "Kylo/Ren | Hiraya".data =
      "Kylo".data ++ '/' :: "Ren".data ++ ' ' :: '|' :: ' ' :: "Hiraya".data := by decide
  have h := nick_parsing.2.2 "Kylo".data "Ren".data "Hiraya".data
    (by decide) (by decide) (by decide) (by decide) (by decide) (by decide)
  rw [heq, h]
  decide

/-- Accumulator identity for the hex-digit expansion. -/
theorem hexCharsAux_append :
    ∀ (fuel n : Nat) (acc : List Char),
      hexCharsAux fuel n acc = hexCharsAux fuel n [] ++ acc := by
  intro fuel
  induction fuel with
  | zero => intro n acc; rfl
  | succ f ih =>
    intro n acc
    by_cases h : n < 16
    · simp [hexCharsAux, h]
    · rw [hexCharsAux, if_neg h, ih (n / 16) (Nat.digitChar (n % 16) :: acc)]
      rw [hexCharsAux, if_neg h, ih (n / 16) [Nat.digitChar (n % 16)]]
      simp

/-- The hex-digit expansion does not depend on the fuel, as long as the
fuel exceeds the value. -/
theorem hexCharsAux_fuel :
    ∀ (n f1 f2 : Nat), n < f1 → n < f2 → ∀ acc,
      hexCharsAux f1 n acc = hexCharsAux f2 n acc := by
  intro n
  induction n using Nat.strong_induction_on with
  | _ n ih =>
    intro f1 f2 h1 h2 acc
    match f1, h1 with
    | f1 + 1, h1 =>
      match f2, h2 with
      | f2 + 1, h2 =>
        by_cases h : n < 16
        · simp [hexCharsAux, h]
        · rw [hexCharsAux, if_neg h, hexCharsAux, if_neg h]
          have hdiv : n / 16 < n := Nat.div_lt_self (by omega) (by omega)
          exact ih (n / 16) hdiv f1 f2 (by omega) (by omega) _

/-- Peeling the last hex digit off a value of at least two digits. -/
theorem hexChars_step {n : Nat} (h : 16 ≤ n) :
    hexChars n = hexChars (n / 16) ++ [Nat.digitChar (n % 16)] := by
  unfold hexChars
  rw [hexCharsAux, if_neg (by omega),
    hexCharsAux_append n (n / 16) [Nat.digitChar (n % 16)]]
  have hdiv : n / 16 < n := Nat.div_lt_self (by omega) (by omega)
  rw [hexCharsAux_fuel (n / 16) n (n / 16 + 1) (by omega) (by omega)]

/-- The last four characters of an at-least-four-character suffix. -/
theorem lastFour_append_four (xs : List Char) (a b c d : Char) :
    lastFour (xs ++ [a, b, c, d]) = [a, b, c, d] := by
  unfold lastFour
  rw [List.length_append]
  have hlen : xs.length + [a, b, c, d].length - 4 = xs.length := by simp
  rw [hlen, List.drop_left xs [a, b, c, d]]

/-- For timestamps of at least five hex digits, the case-id suffix is the
four low hex digits. -/
theorem lastFour_hex {t : Nat} (h : 65536 ≤ t) :
    lastFour ((hexChars t).map Char.toUpper) =
      [Char.toUpper (Nat.digitChar (t / 16 / 16 / 16 % 16)),
       Char.toUpper (Nat.digitChar (t / 16 / 16 % 16)),
       Char.toUpper (Nat.digitChar (t / 16 % 16)),
       Char.toUpper (Nat.digitChar (t % 16))] := by
  have h0 : 16 ≤ t := by omega
  have h1 : 16 ≤ t / 16 := by omega
  have h2 : 16 ≤ t / 16 / 16 := by omega
  have h3 : 16 ≤ t / 16 / 16 / 16 := by omega
  rw [hexChars_step h0, hexChars_step h1, hexChars_step h2, hexChars_step h3]
  have hshape : ((hexChars (t / 16 / 16 / 16 / 16) ++ [Nat.digitChar (t / 16 / 16 / 16 % 16)])
        ++ [Nat.digitChar (t / 16 / 16 % 16)]) ++ [Nat.digitChar (t / 16 % 16)]
        ++ [Nat.digitChar (t % 16)]
      = hexChars (t / 16 / 16 / 16 / 16) ++
          [Nat.digitChar (t / 16 / 16 / 16 % 16), Nat.digitChar (t / 16 / 16 % 16),
           Nat.digitChar (t / 16 % 16), Nat.digitChar (t % 16)] := by
    simp
  rw [hshape, List.map_append]
  exact lastFour_append_four _ _ _ _ _

/-- C9 (amended): the generated case identifier carries no random part;
it is a function of the submission second's calendar year-month and of
the second modulo 65536 only, so any two submissions agreeing on those —
e.g. two submissions in the same second, or 65536 seconds (about 18.2
hours) apart within one month — receive the SAME identifier; identifiers
are not unique. -/
theorem caseId_time_determined (t1 t2 : Nat) (h1 : 65536 ≤ t1) (h2 : 65536 ≤ t2)
    (hym : yearMonth t1 = yearMonth t2) (hmod : t1 % 65536 = t2 % 65536) :
    caseIdOf t1 = caseIdOf t2 := by
  unfold caseIdOf
  rw [hym, lastFour_hex h1, lastFour_hex h2]
  have e0 : t1 % 16 = t2 % 16 := by omega
  have e1 : t1 / 16 % 16 = t2 / 16 % 16 := by omega
  have e2 : t1 / 16 / 16 % 16 = t2 / 16 / 16 % 16 := by omega
  have e3 : t1 / 16 / 16 / 16 % 16 = t2 / 16 / 16 / 16 % 16 := by omega
  rw [e0, e1, e2, e3]

/-- C9 counterexample: two distinct punishment submissions, at unix
seconds 1700000000 and 1700065536 (both November 2023, 65536 seconds
apart), generate the identical case identifier `FL-2311-F100` — the
claimed uniqueness fails. -/
theorem caseId_unique_counterexample :
    caseIdOf 1700000000 = caseIdOf 1700065536 ∧
    (1700000000 : Nat) ≠ 1700065536 ∧
    caseIdOf 1700000000 = "FL-2311-F100".data := by
  refine ⟨by decide, by decide, by decide⟩

/-- C9 witness: the collision criterion applied at two concrete distinct
seconds of November 2023. -/
theorem caseId_time_determined_witness :
    caseIdOf 1700000123 = caseIdOf 1700065659 :=
  caseId_time_determined 1700000123 1700065659 (by decide) (by decide)
    (by decide) (by decide)

/-- C5: `remove_latest_warning` returns "nothing to remove" exactly when
the pair has no records; otherwise it returns the contents (reason,
moderator, timestamp) of a most-recent record of the pair, deletes
exactly that one record, and an immediately following `get_warn_count`
over any window drops by one whenever the removed record lay inside the
window — in particular by exactly one whenever the pre-removal count was
positive. -/
theorem remove_latest_spec (db : List WarningRow) (u g : Nat) (now : Int) (days : Nat)
    (hnd : (db.map WarningRow.rowid).Nodup) :
    ((remove_latest_warning db u g).1 = none ↔ db.filter (matchesPair u g) = []) ∧
    (∀ r : WarningRow, (remove_latest_warning db u g).1 = some r →
      r ∈ db ∧ matchesPair u g r = true ∧
      (∀ x ∈ db, matchesPair u g x = true → x.timestamp ≤ r.timestamp) ∧
      get_warn_count (remove_latest_warning db u g).2 u g now days =
        get_warn_count db u g now days -
          (if now - (days : Int) * 86400 < r.timestamp then 1 else 0) ∧
      (0 < get_warn_count db u g now days →
        get_warn_count (remove_latest_warning db u g).2 u g now days =
          get_warn_count db u g now days - 1)) := by
  cases hl : latestRow (db.filter (matchesPair u g)) with
  | none =>
    constructor
    · constructor
      · intro _
        exact latestRow_eq_none.1 hl
      · intro _
        simp [remove_latest_warning, hl]
    · intro r hr
      simp [remove_latest_warning, hl] at hr
  | some r0 =>
    have hmem0 := latestRow_mem hl
    obtain ⟨hmemdb, hpair⟩ := List.mem_filter.1 hmem0
    constructor
    · constructor
      · intro h
        simp [remove_latest_warning, hl] at h
      · intro h
        rw [h] at hmem0
        simp at hmem0
    · intro r hr
      have hr0 : r0 = r := by
        simpa [remove_latest_warning, hl] using hr
      subst hr0
      have hdb2 : (remove_latest_warning db u g).2 =
          db.filter (fun x => x.rowid != r0.rowid) := by
        simp [remove_latest_warning, hl]
      have hmax : ∀ x ∈ db, matchesPair u g x = true → x.timestamp ≤ r0.timestamp := by
        intro x hx hpx
        exact latestRow_le hl x (List.mem_filter.2 ⟨hx, hpx⟩)
      have hcount :
          get_warn_count (remove_latest_warning db u g).2 u g now days =
            get_warn_count db u g now days -
              (if now - (days : Int) * 86400 < r0.timestamp then 1 else 0) := by
        rw [hdb2]
        unfold get_warn_count
        have key := length_filter_remove
          (fun rr => matchesPair u g rr && decide ((now - (days : Int) * 86400) < rr.timestamp))
          db r0 hnd hmemdb
        rw [key]
        congr 1
        simp [hpair]
      refine ⟨hmemdb, hpair, hmax, hcount, ?_⟩
      intro hpos
      unfold get_warn_count at hpos
      obtain ⟨x, hx⟩ := List.exists_mem_of_ne_nil _ (List.length_pos.1 hpos)
      obtain ⟨hxdb, hxp⟩ := List.mem_filter.1 hx
      rw [Bool.and_eq_true] at hxp
      have hxts : now - (days : Int) * 86400 < x.timestamp := of_decide_eq_true hxp.2
      have hwindow : now - (days : Int) * 86400 < r0.timestamp :=
        lt_of_lt_of_le hxts (hmax x hxdb hxp.1)
      rw [hcount, if_pos hwindow]

/-- C5 witness: on the two-row ledger `dbW` the most recent record
(reason "second", moderator 9, timestamp 200) is returned, and the
3-day-style windowed count decrements from 2 to 1. -/
theorem remove_latest_spec_witness :
    matchesPair 5 7 (⟨2, 5, 7, "second", 9, 200⟩ : WarningRow) = true ∧
    get_warn_count (remove_latest_warning dbW 5 7).2 5 7 300 1 =
      get_warn_count dbW 5 7 300 1 - 1 := by
  have h := (remove_latest_spec dbW 5 7 300 1 (by decide)).2
    ⟨2, 5, 7, "second", 9, 200⟩ (by decide)
  exact ⟨h.2.1, h.2.2.2.2 (by decide)⟩

/-- C7: a directory member is in the resolver's result set iff the
event's normalized traveler name is among the member's id tags and the
member's island-tag list is empty (no location constraint) or contains
the normalized origin island; members with both tag lists empty are
skipped (they can never satisfy the id-tag condition); the result
contains every matching member, not just the first. -/
theorem resolver_membership (members : List Member) (m : Member) (i l : List Char) :
    m ∈ find_matching_members members i l ↔
      m ∈ members ∧
        (i ∈ (parse_member_nick m.displayName).1 ∧
          ((parse_member_nick m.displayName).2 = [] ∨
            l ∈ (parse_member_nick m.displayName).2)) := by
  rw [find_matching_members, List.mem_filter, memberMatches_iff]

/-- C10: a member whose display name parses to an empty id-tag list (and
a non-empty island-tag list) is never in the resolver's match set, for
any arrival event, since the traveler name would have to be a member of
the empty id-tag list. -/
theorem no_id_tags_never_matches (members : List Member) (i l : List Char) (m : Member)
    (h1 : (parse_member_nick m.displayName).1 = [])
    (h2 : (parse_member_nick m.displayName).2 ≠ []) :
    m ∉ find_matching_members members i l := by
  intro hm
  rw [find_matching_members, List.mem_filter] at hm
  have h := (memberMatches_iff i l m).1 hm.2
  rw [h1] at h
  exact absurd h.1 (List.not_mem_nil i)

/-- C10 witness: the member with display name `"-- | Hiraya"` (id tags
empty, island tags `["hiraya"]`) never matches. -/
theorem no_id_tags_never_matches_witness :
    locOnlyMemberW ∉ find_matching_members [locOnlyMemberW] "kylo".data "hiraya".data :=
  no_id_tags_never_matches [locOnlyMemberW] "kylo".data "hiraya".data locOnlyMemberW
    (by decide) (by decide)

/-- C8 witness: a fully filled-in live Warn builder accepts exactly one
submission, whose first effect disables the controls. -/
theorem builder_submission_guard_witness :
    (clickSubmit builderReadyW punishEnvW).2.head? = some Effect.builderControlsDisabledEdit ∧
    (clickSubmit (clickSubmit builderReadyW punishEnvW).1 punishEnvW).2 = [] := by
  have h := builder_submission_guard builderReadyW punishEnvW punishEnvW
  exact ⟨(h.2.1 rfl rfl).1, h.2.2 (by decide)⟩

end Chobot
